import Mathlib

/- A shallow embedding of youtube-sync (src/youtube-sync/youtube-sync.py), a CLI
   tool that mirrors a remote playlist into a local folder.  The persistent
   state of one sync folder (the contents of the .sync directory plus the local
   media files) is modelled by the structure State; the two operations init and
   sync are translated from the source.  The external download library
   (youtube_dl), which the repository only invokes, is modelled from the
   specification of the Fetch Adapter (spec section 4.2). -/

set_option autoImplicit false

namespace YtSync

/-- JSON scalar values stored in the two .conf files.  Strings and booleans
are the only value shapes the program ever reads from them. -/
inductive JVal
| jstr (s : String)
| jbool (b : Bool)
deriving DecidableEq, Repr

/-- A JSON object, as a python dict: ordered key-value pairs with unique keys
(insertion order preserved). -/
abbrev JObj := List (String × JVal)

/-- Model of dict.get(k, None) on a JSON object. -/
def jget : JObj → String → Option JVal
| [], _ => none
| p :: rest, k => if p.1 = k then some p.2 else jget rest k

/-- Model of dict assignment d[k] = v: replace the value of an existing key in
place, otherwise append the pair at the end (python dict semantics). -/
def jinsert : JObj → String → JVal → JObj
| [], k, v => [(k, v)]
| p :: rest, k, v => if p.1 = k then (k, v) :: rest else p :: jinsert rest k v

/-- Python truthiness of the result of dict.get: None and the empty string are
falsy, a boolean is itself. -/
def truthy : Option JVal → Bool
| none => false
| some (JVal.jstr s) => if s = "" then false else true
| some (JVal.jbool b) => b

/-- The title-to-id Archive Ledger mapping (a python dict of strings),
insertion ordered with unique keys. -/
abbrev SMap := List (String × String)

/-- Model of dict.get(k, None) / first pair whose key is k. -/
def dget : SMap → String → Option String
| [], _ => none
| p :: rest, k => if p.1 = k then some p.2 else dget rest k

/-- Model of dict assignment d[k] = v (replace in place or append). -/
def dinsert : SMap → String → String → SMap
| [], k, v => [(k, v)]
| p :: rest, k, v => if p.1 = k then (k, v) :: rest else p :: dinsert rest k v

/-- Model of dict.pop(k, None): drop the pairs whose key is k.  A python dict
holds each key at most once, so dropping every pair with the key coincides
with removing the single entry. -/
def dpop : SMap → String → SMap
| [], _ => []
| p :: rest, k => if p.1 = k then dpop rest k else p :: dpop rest k

/-- The title of the first pair whose value is the given id.  This combines the
membership test `song_id in rm_ids` (isSome) with the first-index lookup
`rm_titles[rm_ids.index(song_id)]` of YoutubeSync._update_files, since
list(d.keys()) and list(d.values()) are aligned. -/
def findTitleByVal : SMap → String → Option String
| [], _ => none
| p :: rest, i => if p.2 = i then some p.1 else findTitleByVal rest i

/-- Membership of a string in a list of strings (python `in`). -/
def hasLine : List String → String → Bool
| [], _ => false
| l :: rest, x => if l = x then true else hasLine rest x

/-- Literal prefix of the already-recorded log message matched by
ArchiveCheckLogger.debug. -/
def dlPrefix : String := "[download] "

/-- Literal tail of the already-recorded log message matched by
ArchiveCheckLogger.debug. -/
def recordedSuffix : String := " has already been recorded in archive"

/-- Model of the regular-expression match in ArchiveCheckLogger.debug: the
pattern anchors at the start of the message, captures the title greedily and
requires the literal tail.  For the canonical messages the fetcher emits this
returns exactly the captured title. -/
def archiveMsgTitle (msg : String) : Option String :=
  let cs := msg.toList
  let p := dlPrefix.toList
  let r := recordedSuffix.toList
  if p.isPrefixOf cs && r.isSuffixOf (cs.drop p.length) then
    some (String.mk ((cs.drop p.length).take ((cs.drop p.length).length - r.length)))
  else none

/-- Model of ArchiveCheckLogger.debug: on an already-recorded message, pop the
captured title from the candidates-for-removal working set; any other message
leaves the set unchanged (printing is not modelled). -/
def debugStep (songs : SMap) (msg : String) : SMap :=
  match archiveMsgTitle msg with
  | some title => dpop songs title
  | none => songs

/-- One entry of the remote playlist snapshot. -/
structure Entry where
  title : String
  id : String
deriving DecidableEq, Repr

/-- The metadata returned by the fetcher for the configured link: the fields
sync reads from extract_info.  mtype models meta.get(\x27_type\x27). -/
structure Meta where
  mtype : Option String
  extractor_key : Option String
  title : String
  entries : List Entry
deriving DecidableEq, Repr

/-- The persistent state of one sync folder: the .sync directory flag, the
contents of the four persisted files (none models an absent file) and the set
of local media files.  ytdl options are taken as the defaults; in particular
the output template is the default one, which _update_files renders. -/
structure State where
  valid_dir : Bool
  config_file : Option JObj
  ytdl_opts_file : Option JObj
  sync_file : Option SMap
  archive_file : Option (List String)
  files : List String
deriving DecidableEq, Repr

/-- The ways sync can abort: the two exception classes of the source, plus the
file-system errors its file handling can raise (open of a missing archive
file, IndexError from line.split()[1] or from glob(...)[0] on an empty
match list). -/
inductive SyncErr
| noPlaylistLink
| notYoutubePlaylist
| fileNotFound
| indexError
deriving DecidableEq, Repr

/-- Outcome of one sync invocation: normal return with the final state, or an
uncaught exception together with the persistent state at the moment it was
raised. -/
inductive SyncOutcome
| ok (s : State)
| err (e : SyncErr) (s : State)
deriving DecidableEq, Repr

/-- Modelled from the spec: the download-archive record line the fetcher
appends for a downloaded entry, extractor key then id. -/
def recLine (e : Entry) : String := "youtube " ++ e.id

/-- The default output template "./%(playlist_title)s/%(title)s.%(ext)s"
rendered at a playlist title, an entry title and an extension. -/
def mediaPath (playlist_title title ext : String) : String :=
  "./" ++ playlist_title ++ "/" ++ title ++ "." ++ ext

/-- Modelled from the spec: the local file the fetcher produces for a
downloaded entry (audio format m4a per the default options). -/
def mediaFile (playlist_title title : String) : String :=
  mediaPath playlist_title title "m4a"

/-- Whether a file name matches the glob pattern _update_files builds with a
wildcard extension: the rendered template up to the dot is a literal prefix
and the remainder contains no path separator. -/
def isGlobMatch (playlist_title title f : String) : Bool :=
  let p := (mediaPath playlist_title title "").toList
  p.isPrefixOf f.toList && !((f.toList.drop p.length).contains '/')

/-- The files matching the wildcard pattern, in directory order (modelled as
list order). -/
def globMatches (playlist_title title : String) (files : List String) : List String :=
  files.filter (fun f => isGlobMatch playlist_title title f)

/-- The mutable data the fetch run touches: the download-archive file, the
local media files, and the candidates-for-removal working set held by the
ArchiveCheckLogger. -/
structure FetchSt where
  lines : Option (List String)
  files : List String
  remove_list : SMap
deriving DecidableEq, Repr

/-- Modelled from the spec: how the external fetcher (youtube_dl) processes
one playlist entry when invoked with a download archive and the
ArchiveCheckLogger.  An entry whose record line is already in the archive is
skipped and reported via the already-recorded log message, which the logger
turns into a pop of the working set; otherwise the entry is downloaded: its
record line is appended to the archive file (creating it if absent) and its
media file is written. -/
def fetchEntry (playlist_title : String) (st : FetchSt) (e : Entry) : FetchSt :=
  if hasLine (st.lines.getD []) (recLine e) then
    { st with remove_list := debugStep st.remove_list (dlPrefix ++ e.title ++ recordedSuffix) }
  else
    { lines := some (st.lines.getD [] ++ [recLine e])
      files := if hasLine st.files (mediaFile playlist_title e.title) then st.files
               else st.files ++ [mediaFile playlist_title e.title]
      remove_list := st.remove_list }

/-- Modelled from the spec: the whole fetch pass, processing the snapshot
entries in order. -/
def runFetch (m : Meta) (st : FetchSt) : FetchSt :=
  m.entries.foldl (fetchEntry m.title) st

/-- The entry loop of sync (for entry in meta.get("entries"):
sync_archive[title] = id), recording every snapshot entry in the ledger. -/
def insertEntries (mp : SMap) (es : List Entry) : SMap :=
  es.foldl (fun a e => dinsert a e.title e.id) mp

/-- Character-level worker for the whitespace split: acc holds the reversed
characters of the field being read. -/
def splitFieldsAux : List Char → List Char → List String
| [], acc => if acc = [] then [] else [String.mk acc.reverse]
| c :: rest, acc =>
  if c.isWhitespace then
    if acc = [] then splitFieldsAux rest []
    else String.mk acc.reverse :: splitFieldsAux rest []
  else splitFieldsAux rest (c :: acc)

/-- Model of line.split(): split on runs of whitespace, dropping empty
fields. -/
def splitFields (line : String) : List String :=
  splitFieldsAux line.toList []

/-- The rewrite loop of _update_files over the lines of archive.txt: a line
whose second field is the id of a working-set entry is dropped and the first
title holding that id is recorded as removed, any other line is kept.  A line
with fewer than two fields makes line.split()[1] raise IndexError. -/
def rewriteLoop (rm : SMap) : List String → Except Unit (List String × List String)
| [] => Except.ok ([], [])
| line :: rest =>
  match (splitFields line)[1]? with
  | none => Except.error ()
  | some song_id =>
    match findTitleByVal rm song_id with
    | some title =>
      match rewriteLoop rm rest with
      | Except.error e => Except.error e
      | Except.ok (kept, removed) => Except.ok (kept, title :: removed)
    | none =>
      match rewriteLoop rm rest with
      | Except.error e => Except.error e
      | Except.ok (kept, removed) => Except.ok (line :: kept, removed)

/-- The removal loop of _update_files: for each removed title, pop it from the
in-memory ledger, then delete the first file matching the rendered wildcard
pattern; an empty match list makes glob.glob(path)[0] raise IndexError, at
which point the files deleted so far are returned with the error. -/
def removeLoop (playlist_title : String) : List String → SMap → List String → Except (List String) (SMap × List String)
| [], arch, files => Except.ok (arch, files)
| key :: rest, arch, files =>
  let arch1 := dpop arch key
  match globMatches playlist_title key files with
  | [] => Except.error files
  | f :: _ => removeLoop playlist_title rest arch1 (files.erase f)

/-- Model of YoutubeSync._update_files: open archive.txt (read-write, failing
if absent), rewrite it dropping the lines of removed ids, delete the removed
titles media files while popping them from the in-memory ledger, and persist
the ledger to sync_archive.json.  On the IndexError inside the rewrite the
process dies before the ledger is persisted; the partially rewritten byte
content of archive.txt at that instant is a seek/truncate artefact no claim
depends on, and the field keeps the pre-rewrite lines. -/
def update_files (playlist_title : String) (remove_list : SMap) (sync_archive : SMap) (s : State) : SyncOutcome :=
  match s.archive_file with
  | none => SyncOutcome.err SyncErr.fileNotFound s
  | some lines =>
    match rewriteLoop remove_list lines with
    | Except.error _ => SyncOutcome.err SyncErr.indexError s
    | Except.ok (kept, removed_songs) =>
      match removeLoop playlist_title removed_songs sync_archive s.files with
      | Except.error files1 =>
        SyncOutcome.err SyncErr.indexError { s with archive_file := some kept, files := files1 }
      | Except.ok (arch, files2) =>
        SyncOutcome.ok { s with archive_file := some kept, files := files2, sync_file := some arch }

/-- Model of YoutubeSync.sync for a remote snapshot m: return silently when
the folder was never initialized; raise NoPlaylistLink when the stored link is
missing or empty; run the fetch with the working set initialized to a copy of
the loaded ledger; raise NotYoutubePlaylist when the metadata is not
playlist-shaped (the `is not` comparisons of the source are modelled as
inequality of the interned literals); record every snapshot entry in the
in-memory ledger and reconcile the files. -/
def sync (m : Meta) (s : State) : SyncOutcome :=
  if !s.valid_dir then SyncOutcome.ok s
  else
    let sync_config := s.config_file.getD []
    if !truthy (jget sync_config "playlist_link") then SyncOutcome.err SyncErr.noPlaylistLink s
    else
      let fo := runFetch m ⟨s.archive_file, s.files, s.sync_file.getD []⟩
      let s1 : State := { s with archive_file := fo.lines, files := fo.files }
      if m.mtype ≠ some "playlist" ∧ m.extractor_key ≠ some "YoutubePlaylist" then
        SyncOutcome.err SyncErr.notYoutubePlaylist s1
      else
        let sync_archive := insertEntries (s.sync_file.getD []) m.entries
        update_files m.title fo.remove_list sync_archive s1

/-- The verbatim default fetcher options written by init when
ytdl_opts.conf is absent. -/
def ytdl_default_opts : JObj :=
  [("extractaudio", JVal.jbool true),
   ("audioformat", JVal.jstr "m4a"),
   ("format", JVal.jstr "m4a"),
   ("nocheckcertificate", JVal.jbool true),
   ("ignoreerrors", JVal.jbool true),
   ("no_warnings", JVal.jbool true),
   ("noplaylist", JVal.jbool true),
   ("outtmpl", JVal.jstr "./%(playlist_title)s/%(title)s.%(ext)s")]

/-- Model of YoutubeSync.init: set the link on the in-memory config, create
the .sync folder when absent, and write each of the two config files only when
it does not exist yet (the persisted config is hence not touched when it
already exists, a divergence from the documented behavior). -/
def init (s : State) (playlist_link : String) : State :=
  let sync_config := jinsert (s.config_file.getD []) "playlist_link" (JVal.jstr playlist_link)
  let s1 : State := { s with valid_dir := true }
  let s2 : State := if s1.config_file.isNone then { s1 with config_file := some sync_config } else s1
  if s2.ytdl_opts_file.isNone then { s2 with ytdl_opts_file := some (s.ytdl_opts_file.getD ytdl_default_opts) } else s2

/-- Characters json.dump escapes inside a string, restricted to the printable
ASCII range this development reasons about: the quote and the backslash.  The
library additionally escapes control and non-ASCII characters, which is why
the round-trip theorem carries a printable-ASCII hypothesis. -/
def escChar (c : Char) : List Char :=
  if c = '"' ∨ c = '\\' then ['\\', c] else [c]

/-- JSON encoding of the characters of a string body. -/
def encStrChars (cs : List Char) : List Char := cs.flatMap escChar

/-- JSON encoding of a string, quotes included. -/
def encStr (s : String) : List Char := '"' :: encStrChars s.toList ++ ['"']

/-- JSON encoding of one key-value pair with the default json.dump separator. -/
def encPair (p : String × String) : List Char := encStr p.1 ++ ':' :: ' ' :: encStr p.2

/-- JSON encoding of the pair list of an object, comma separated. -/
def encPairs : SMap → List Char
| [] => []
| [p] => encPair p
| p :: q :: rest => encPair p ++ ',' :: ' ' :: encPairs (q :: rest)

/-- Model of json.dump(data, f) for a title-to-id mapping: the byte content
written to the file (compact form, as used for sync_archive.json). -/
def write_json (data : SMap) : String :=
  String.mk ('\x7b' :: (encPairs data ++ ['\x7d']))

/-- Parse a JSON string body up to the closing quote, undoing escapes. -/
def parseStrBody : List Char → Option (List Char × List Char)
| [] => none
| c :: rest =>
  if c = '"' then some ([], rest)
  else if c = '\\' then
    match rest with
    | [] => none
    | d :: rest2 =>
      match parseStrBody rest2 with
      | none => none
      | some (body, r) => some (d :: body, r)
  else
    match parseStrBody rest with
    | none => none
    | some (body, r) => some (c :: body, r)

/-- Parse a nonempty comma-separated pair list followed by the closing brace,
with fuel bounding the number of pairs. -/
def parsePairs : Nat → List Char → Option (SMap × List Char)
| 0, _ => none
| Nat.succ fuel, cs =>
  match cs with
  | '"' :: cs1 =>
    match parseStrBody cs1 with
    | none => none
    | some (k, cs2) =>
      match cs2 with
      | ':' :: ' ' :: '"' :: cs3 =>
        match parseStrBody cs3 with
        | none => none
        | some (v, cs4) =>
          match cs4 with
          | '\x7d' :: cs5 => some ([(String.mk k, String.mk v)], cs5)
          | ',' :: ' ' :: cs5 =>
            match parsePairs fuel cs5 with
            | none => none
            | some (rest, cs6) => some ((String.mk k, String.mk v) :: rest, cs6)
          | _ => none
      | _ => none
  | _ => none

/-- Model of json.load on the object grammar write_json emits: a string map or
a failure on anything else. -/
def json_parse_obj (text : String) : Option SMap :=
  match text.toList with
  | '\x7b' :: cs =>
    if cs = ['\x7d'] then some []
    else
      match parsePairs (cs.length + 1) cs with
      | some (m, []) => some m
      | _ => none
  | _ => none

/-- Model of load_json(filename, default_val): the default when the file is
absent, otherwise the parse of its content (json.load raises on malformed
content, modelled as none). -/
def load_json (content : Option String) (default_val : SMap) : Option SMap :=
  match content with
  | none => some default_val
  | some text => json_parse_obj text

/-! Concrete fixtures used by the claim theorems, witnesses and
counterexamples. -/

/-- The playlist classification the spec names: the fetched metadata describes
a playlist-type resource when its type tag is playlist or its extractor key is
the youtube playlist extractor. -/
def isPlaylistResource (m : Meta) : Prop :=
  m.mtype = some "playlist" ∨ m.extractor_key = some "YoutubePlaylist"

/-- Empty playlist snapshot fixture. -/
def metaPL : Meta := ⟨some "playlist", some "YoutubePlaylist", "PL", []⟩

/-- Config file storing the playlist link L. -/
def cfgL : JObj := [("playlist_link", JVal.jstr "L")]

/-- An already-initialized folder whose config stores playlist link A. -/
def initializedA : State :=
  ⟨true, some [("playlist_link", JVal.jstr "A")], some ytdl_default_opts, some [], some [], []⟩

/-- An uninitialized folder (no .sync directory). -/
def noDirState : State := ⟨false, none, none, none, none, []⟩

/-- An initialized folder whose config lacks the playlist link. -/
def noLinkState : State := ⟨true, some [], some ytdl_default_opts, some [], some [], []⟩

/-- A metadata record that does not describe a playlist. -/
def metaVideo : Meta := ⟨some "video", some "Youtube", "V", []⟩

/-- A freshly initialized folder with link L. -/
def readyState : State := ⟨true, some cfgL, some ytdl_default_opts, some [], some [], []⟩

/-- A ready folder whose archive file contains a blank line. -/
def blankLineState : State :=
  ⟨true, some cfgL, some ytdl_default_opts, some [("t", "x")], some ["", "youtube x"], []⟩

/-- Snapshot containing the single entry t mapping to id i. -/
def metaTI : Meta := ⟨some "playlist", some "YoutubePlaylist", "PL", [⟨"t", "i"⟩]⟩

/-- A state in steady agreement with metaTI. -/
def steadyState : State :=
  ⟨true, some cfgL, some ytdl_default_opts, some [("t", "i")], some ["youtube i"],
   ["./PL/t.m4a"]⟩

/-- Snapshot with the single entry t now carrying the new id. -/
def metaTnew : Meta := ⟨some "playlist", some "YoutubePlaylist", "PL", [⟨"t", "new"⟩]⟩

/-- State before the first run of the re-upload scenario: t is in the ledger
under its old id, recorded and on disk, while the remote entry for t carries a
new id. -/
def reupState : State :=
  ⟨true, some cfgL, some ytdl_default_opts, some [("t", "old")], some ["youtube old"],
   ["./PL/t.m4a"]⟩

/-- State after the first run of the re-upload scenario. -/
def reupState1 : State :=
  ⟨true, some cfgL, some ytdl_default_opts, some [], some ["youtube new"], []⟩

/-- State after the second run of the re-upload scenario. -/
def reupState2 : State :=
  ⟨true, some cfgL, some ytdl_default_opts, some [("t", "new")], some ["youtube new"], []⟩

/-- A desynced state: the ledger holds t under id i but the text ledger lacks
the record line for i (as left behind by an earlier failed download). -/
def desyncState : State :=
  ⟨true, some cfgL, some ytdl_default_opts, some [("t", "i")], some [], []⟩

/-- The state sync produces from the desynced state: the freshly downloaded
entry is removed again and t disappears from the ledger. -/
def desyncFinal : State :=
  ⟨true, some cfgL, some ytdl_default_opts, some [], some [], []⟩

/-- Snapshot with two distinct entries sharing the title t. -/
def metaT12 : Meta :=
  ⟨some "playlist", some "YoutubePlaylist", "PL", [⟨"t", "i1"⟩, ⟨"t", "i2"⟩]⟩

/-- A freshly initialized state with empty ledgers. -/
def freshState : State :=
  ⟨true, some cfgL, some ytdl_default_opts, some [], some [], []⟩

/-- The state sync produces from the fresh state under metaT12. -/
def dupFinal : State :=
  ⟨true, some cfgL, some ytdl_default_opts, some [("t", "i2")],
   some ["youtube i1", "youtube i2"], ["./PL/t.m4a"]⟩

/-- The duplicate-title scenario started from a ledger that already maps t to
an old recorded id. -/
def dupTitleState : State :=
  ⟨true, some cfgL, some ytdl_default_opts, some [("t", "i0")], some ["youtube i0"],
   ["./PL/t.m4a"]⟩

/-- The state sync produces from dupTitleState under metaT12. -/
def dupTitleFinal : State :=
  ⟨true, some cfgL, some ytdl_default_opts, some [], some ["youtube i1", "youtube i2"], []⟩

/-- Snapshot reporting only Song A still present. -/
def metaA : Meta := ⟨some "playlist", some "YoutubePlaylist", "PL", [⟨"Song A", "id1"⟩]⟩

/-- Ledger and disk holding Song A and Song B, both recorded. -/
def twoSongState : State :=
  ⟨true, some cfgL, some ytdl_default_opts,
   some [("Song A", "id1"), ("Song B", "id2")],
   some ["youtube id1", "youtube id2"],
   ["./PL/Song A.m4a", "./PL/Song B.m4a"]⟩

/-- The state sync produces from twoSongState under metaA: Song B fully
removed. -/
def oneSongState : State :=
  ⟨true, some cfgL, some ytdl_default_opts, some [("Song A", "id1")],
   some ["youtube id1"], ["./PL/Song A.m4a"]⟩

/-- The fetch outcome of the Song A / Song B scenario. -/
def twoSongFetch : FetchSt :=
  ⟨some ["youtube id1", "youtube id2"], ["./PL/Song A.m4a", "./PL/Song B.m4a"],
   [("Song B", "id2")]⟩

/-- A stale state: Song B sits in the ledger and on disk but its id has no
line in the text ledger. -/
def staleState : State :=
  ⟨true, some cfgL, some ytdl_default_opts, some [("B", "id2")], some [], ["./PL/B.m4a"]⟩

/-! Helper lemmas about the dict model. -/

theorem dget_dinsert_self (mp : SMap) (k v : String) :
    dget (dinsert mp k v) k = some v := by
  induction mp with
  | nil => simp [dinsert, dget]
  | cons p rest ih =>
    by_cases h : p.1 = k
    · simp [dinsert, dget, h]
    · simp [dinsert, dget, h, ih]

theorem dget_dinsert_ne (mp : SMap) (k v k2 : String) (h : k2 ≠ k) :
    dget (dinsert mp k v) k2 = dget mp k2 := by
  induction mp with
  | nil => simp [dinsert, dget, Ne.symm h]
  | cons p rest ih =>
    by_cases hp : p.1 = k
    · have h1 : ¬ (k = k2) := Ne.symm h
      have h2 : ¬ (p.1 = k2) := by rw [hp]; exact h1
      simp only [dinsert, if_pos hp, dget, if_neg h1, if_neg h2]
    · by_cases hq : p.1 = k2
      · simp only [dinsert, if_neg hp, dget, if_pos hq]
      · simp only [dinsert, if_neg hp, dget, if_neg hq, ih]

theorem dinsert_eq_of_dget (mp : SMap) (k v : String) (h : dget mp k = some v) :
    dinsert mp k v = mp := by
  induction mp with
  | nil => simp [dget] at h
  | cons p rest ih =>
    by_cases hp : p.1 = k
    · simp only [dget, if_pos hp] at h
      injection h with hv
      simp only [dinsert, if_pos hp]
      rw [← hp, ← hv]
    · simp only [dget, if_neg hp] at h
      simp only [dinsert, if_neg hp, ih h]

theorem dget_dpop_self (mp : SMap) (k : String) : dget (dpop mp k) k = none := by
  induction mp with
  | nil => simp [dpop, dget]
  | cons p rest ih =>
    by_cases hp : p.1 = k
    · simp [dpop, hp, ih]
    · simp [dpop, dget, hp, ih]

theorem dget_dpop_ne (mp : SMap) (k k2 : String) (h : k2 ≠ k) :
    dget (dpop mp k) k2 = dget mp k2 := by
  induction mp with
  | nil => simp [dpop]
  | cons p rest ih =>
    by_cases hp : p.1 = k
    · have h2 : ¬ (p.1 = k2) := by rw [hp]; exact Ne.symm h
      simp only [dpop, if_pos hp, ih, dget, if_neg h2]
    · by_cases hq : p.1 = k2
      · simp only [dpop, if_neg hp, dget, if_pos hq]
      · simp only [dpop, if_neg hp, dget, if_neg hq, ih]

theorem dget_dpop_none (mp : SMap) (k t : String) (h : dget mp t = none) :
    dget (dpop mp k) t = none := by
  by_cases hk : t = k
  · rw [hk]; exact dget_dpop_self mp k
  · rw [dget_dpop_ne mp k t hk]; exact h

theorem mem_dpop (mp : SMap) (k : String) (p : String × String)
    (h : p ∈ dpop mp k) : p ∈ mp ∧ p.1 ≠ k := by
  induction mp with
  | nil => simp [dpop] at h
  | cons q rest ih =>
    by_cases hq : q.1 = k
    · simp only [dpop, if_pos hq] at h
      exact ⟨List.mem_cons_of_mem q (ih h).1, (ih h).2⟩
    · simp only [dpop, if_neg hq] at h
      rcases List.mem_cons.mp h with h1 | h2
      · subst h1; exact ⟨List.mem_cons_self _ _, hq⟩
      · exact ⟨List.mem_cons_of_mem q (ih h2).1, (ih h2).2⟩

theorem dget_eq_none_iff (mp : SMap) (t : String) :
    dget mp t = none ↔ ∀ p ∈ mp, p.1 ≠ t := by
  induction mp with
  | nil => simp [dget]
  | cons p rest ih =>
    by_cases hp : p.1 = t
    · simp [dget, hp]
    · simp [dget, hp, ih]

theorem findTitleByVal_mem (mp : SMap) (i ti : String)
    (h : findTitleByVal mp i = some ti) : (ti, i) ∈ mp := by
  induction mp with
  | nil => simp [findTitleByVal] at h
  | cons p rest ih =>
    by_cases hp : p.2 = i
    · simp only [findTitleByVal, if_pos hp] at h
      injection h with ht
      have hpe : (ti, i) = p := by rw [← ht, ← hp]
      rw [hpe]
      exact List.mem_cons_self _ _
    · simp only [findTitleByVal, if_neg hp] at h
      exact List.mem_cons_of_mem p (ih h)

theorem findTitleByVal_eq_some (mp : SMap) (t i : String)
    (hmem : (t, i) ∈ mp) (huniq : ∀ p ∈ mp, p.2 = i → p.1 = t) :
    findTitleByVal mp i = some t := by
  induction mp with
  | nil => simp at hmem
  | cons p rest ih =>
    by_cases hp : p.2 = i
    · have := huniq p (List.mem_cons_self _ _) hp
      simp [findTitleByVal, hp, this]
    · rcases List.mem_cons.mp hmem with h1 | h2
      · rw [← h1] at hp; simp at hp
      · exact by
          simp only [findTitleByVal, if_neg hp]
          exact ih h2 (fun q hq => huniq q (List.mem_cons_of_mem p hq))

theorem findTitleByVal_eq_none_iff (mp : SMap) (i : String) :
    findTitleByVal mp i = none ↔ ∀ p ∈ mp, p.2 ≠ i := by
  induction mp with
  | nil => simp [findTitleByVal]
  | cons p rest ih =>
    by_cases hp : p.2 = i
    · simp [findTitleByVal, hp]
    · simp [findTitleByVal, hp, ih]

theorem hasLine_iff_mem (ls : List String) (x : String) :
    hasLine ls x = true ↔ x ∈ ls := by
  induction ls with
  | nil => simp [hasLine]
  | cons l rest ih =>
    by_cases h : l = x
    · simp [hasLine, h]
    · simp [hasLine, h, ih, Ne.symm h]

/-! Helper lemmas about the log-message parsing of ArchiveCheckLogger.debug. -/

theorem isPrefixOf_append_self (p x : List Char) : p.isPrefixOf (p ++ x) = true :=
  List.isPrefixOf_iff_prefix.mpr (List.prefix_append p x)

theorem isSuffixOf_append_self (r x : List Char) : r.isSuffixOf (x ++ r) = true :=
  List.isSuffixOf_iff_suffix.mpr (List.suffix_append x r)

theorem mk_toList (s : String) : String.mk s.toList = s := rfl

theorem toList_append (a b : String) : (a ++ b).toList = a.toList ++ b.toList := by
  cases a; cases b; rfl

theorem archiveMsgTitle_canonical (t : String) :
    archiveMsgTitle (dlPrefix ++ t ++ recordedSuffix) = some t := by
  have hsplit : (dlPrefix ++ t ++ recordedSuffix).toList
      = dlPrefix.toList ++ (t.toList ++ recordedSuffix.toList) := by
    rw [toList_append, toList_append, List.append_assoc]
  simp [archiveMsgTitle, hsplit, List.drop_left, isPrefixOf_append_self,
    isSuffixOf_append_self, Nat.add_sub_cancel, List.take_left, mk_toList]

theorem debugStep_canonical (songs : SMap) (t : String) :
    debugStep songs (dlPrefix ++ t ++ recordedSuffix) = dpop songs t := by
  simp [debugStep, archiveMsgTitle_canonical]

/-! Helper lemmas about the fetch pass. -/

theorem debugStep_mem (songs : SMap) (msg : String) (p : String × String)
    (h : p ∈ debugStep songs msg) : p ∈ songs := by
  cases hmt : archiveMsgTitle msg with
  | some ti =>
    simp only [debugStep, hmt] at h
    exact (mem_dpop _ _ _ h).1
  | none => simpa only [debugStep, hmt] using h

theorem fetchFold_lines_getD (es : List Entry) (pt : String) :
    ∀ st : FetchSt, ∃ ex, (es.foldl (fetchEntry pt) st).lines.getD [] = st.lines.getD [] ++ ex := by
  induction es with
  | nil => intro st; exact ⟨[], by simp⟩
  | cons e rest ih =>
    intro st
    rw [List.foldl_cons]
    rcases ih (fetchEntry pt st e) with ⟨ex, hex⟩
    by_cases hrec : hasLine (st.lines.getD []) (recLine e) = true
    · refine ⟨ex, ?_⟩
      rw [hex]
      simp [fetchEntry, hrec]
    · refine ⟨[recLine e] ++ ex, ?_⟩
      rw [hex]
      simp [fetchEntry, hrec]

theorem fetchFold_lines_some (es : List Entry) (pt : String) :
    ∀ (st : FetchSt) (L : List String), st.lines = some L →
      ∃ ex, (es.foldl (fetchEntry pt) st).lines = some (L ++ ex) := by
  induction es with
  | nil => intro st L hL; exact ⟨[], by simp [hL]⟩
  | cons e rest ih =>
    intro st L hL
    rw [List.foldl_cons]
    by_cases hrec : hasLine (st.lines.getD []) (recLine e) = true
    · have hrecL : hasLine L (recLine e) = true := by
        simpa only [hL, Option.getD_some] using hrec
      have hstep : (fetchEntry pt st e).lines = some L := by simp [fetchEntry, hrecL, hL]
      exact ih _ _ hstep
    · have hrecL : ¬ hasLine L (recLine e) = true := by
        simpa only [hL, Option.getD_some] using hrec
      have hstep : (fetchEntry pt st e).lines = some (L ++ [recLine e]) := by
        simp [fetchEntry, hrecL, hL]
      rcases ih _ _ hstep with ⟨ex, hex⟩
      exact ⟨[recLine e] ++ ex, by rw [hex, List.append_assoc]⟩

theorem fetchFold_remove_list_mem (es : List Entry) (pt : String) :
    ∀ (st : FetchSt) (p : String × String),
      p ∈ (es.foldl (fetchEntry pt) st).remove_list → p ∈ st.remove_list := by
  induction es with
  | nil => intro st p h; simpa using h
  | cons e rest ih =>
    intro st p h
    rw [List.foldl_cons] at h
    have h1 := ih _ _ h
    by_cases hrec : hasLine (st.lines.getD []) (recLine e) = true
    · simp only [fetchEntry, hrec, if_true] at h1
      exact debugStep_mem _ _ _ h1
    · simpa [fetchEntry, hrec] using h1

theorem fetchFold_all_recorded (es : List Entry) (pt : String) :
    ∀ st : FetchSt, (∀ e ∈ es, hasLine (st.lines.getD []) (recLine e) = true) →
      es.foldl (fetchEntry pt) st
        = ⟨st.lines, st.files, es.foldl (fun r e => dpop r e.title) st.remove_list⟩ := by
  induction es with
  | nil => intro st _; rfl
  | cons e rest ih =>
    intro st h
    have hrec := h e (List.mem_cons_self _ _)
    rw [List.foldl_cons, List.foldl_cons]
    have hstep : fetchEntry pt st e
        = { st with remove_list := dpop st.remove_list e.title } := by
      simp [fetchEntry, hrec, debugStep_canonical]
    rw [hstep]
    exact ih _ (fun e2 he2 => h e2 (List.mem_cons_of_mem e he2))

theorem fetchFold_key_removed (pt t : String) (es : List Entry) (st : FetchSt)
    (e : Entry) (hes : e ∈ es) (het : e.title = t)
    (hrec : hasLine (st.lines.getD []) (recLine e) = true) :
    ∀ p ∈ (es.foldl (fetchEntry pt) st).remove_list, p.1 ≠ t := by
  rcases List.append_of_mem hes with ⟨l1, l2, rfl⟩
  intro p hp
  rw [List.foldl_append, List.foldl_cons] at hp
  rcases fetchFold_lines_getD l1 pt st with ⟨ex, hex⟩
  have hrec1 : hasLine ((l1.foldl (fetchEntry pt) st).lines.getD []) (recLine e) = true := by
    rw [hex, hasLine_iff_mem]
    exact List.mem_append_left ex ((hasLine_iff_mem _ _).mp hrec)
  have hstep : fetchEntry pt (l1.foldl (fetchEntry pt) st) e
      = { l1.foldl (fetchEntry pt) st with
          remove_list := dpop (l1.foldl (fetchEntry pt) st).remove_list e.title } := by
    simp [fetchEntry, hrec1, debugStep_canonical]
  rw [hstep] at hp
  have hmem := fetchFold_remove_list_mem l2 pt _ p hp
  have h2 := (mem_dpop _ _ _ hmem).2
  rw [het] at h2
  exact h2

/-! Helper lemmas about the ledger-insert loop of sync. -/

theorem insertEntries_dget_fixed (es : List Entry) :
    ∀ (mp : SMap) (t i : String), dget mp t = some i →
      (∀ e ∈ es, e.title = t → e.id = i) →
      dget (insertEntries mp es) t = some i := by
  induction es with
  | nil => intro mp t i h0 _; simpa [insertEntries] using h0
  | cons e rest ih =>
    intro mp t i h0 h
    by_cases het : e.title = t
    · have hid : e.id = i := h e (List.mem_cons_self _ _) het
      have hstep : dget (dinsert mp e.title e.id) t = some i := by
        rw [het, hid]; exact dget_dinsert_self mp t i
      exact ih _ _ _ hstep (fun e2 he2 => h e2 (List.mem_cons_of_mem e he2))
    · have hstep : dget (dinsert mp e.title e.id) t = some i := by
        rw [dget_dinsert_ne mp e.title e.id t (Ne.symm het)]; exact h0
      exact ih _ _ _ hstep (fun e2 he2 => h e2 (List.mem_cons_of_mem e he2))

theorem insertEntries_eq_self (es : List Entry) :
    ∀ mp : SMap, (∀ e ∈ es, dget mp e.title = some e.id) → insertEntries mp es = mp := by
  induction es with
  | nil => intro mp _; rfl
  | cons e rest ih =>
    intro mp h
    have hstep : dinsert mp e.title e.id = mp :=
      dinsert_eq_of_dget mp e.title e.id (h e (List.mem_cons_self _ _))
    calc insertEntries mp (e :: rest)
        = insertEntries (dinsert mp e.title e.id) rest := rfl
      _ = insertEntries mp rest := by rw [hstep]
      _ = mp := ih mp (fun e2 he2 => h e2 (List.mem_cons_of_mem e he2))

theorem insertEntries_dget_no_title (es : List Entry) :
    ∀ (mp : SMap) (t : String), (∀ e ∈ es, e.title ≠ t) →
      dget (insertEntries mp es) t = dget mp t := by
  induction es with
  | nil => intro mp t _; rfl
  | cons e rest ih =>
    intro mp t h
    have h1 : t ≠ e.title := Ne.symm (h e (List.mem_cons_self _ _))
    exact (ih (dinsert mp e.title e.id) t (fun e2 he2 => h e2 (List.mem_cons_of_mem e he2))).trans
      (dget_dinsert_ne mp e.title e.id t h1)

theorem insertEntries_last (l1 l2 : List Entry) (e : Entry) (mp : SMap) (t : String)
    (het : e.title = t) (hl2 : ∀ e2 ∈ l2, e2.title ≠ t) :
    dget (insertEntries mp (l1 ++ e :: l2)) t = some e.id := by
  have hmid : dget (dinsert (insertEntries mp l1) e.title e.id) t = some e.id := by
    rw [het]; exact dget_dinsert_self _ t e.id
  have hsplit : insertEntries mp (l1 ++ e :: l2)
      = insertEntries (dinsert (insertEntries mp l1) e.title e.id) l2 := by
    simp [insertEntries, List.foldl_append]
  rw [hsplit]
  exact (insertEntries_dget_no_title l2 _ t hl2).trans hmid

/-! Helper lemmas about the archive rewrite loop. -/

theorem rewriteLoop_error_of_malformed (rm : SMap) :
    ∀ L : List String, (∃ line ∈ L, (splitFields line)[1]? = none) →
      rewriteLoop rm L = Except.error () := by
  intro L
  induction L with
  | nil => intro h; rcases h with ⟨line, hm, _⟩; simp at hm
  | cons line rest ih =>
    intro h
    cases hid : (splitFields line)[1]? with
    | none => simp [rewriteLoop, hid]
    | some sid =>
      rcases h with ⟨l2, hl2, hl2n⟩
      rcases List.mem_cons.mp hl2 with h1 | h2
      · rw [h1] at hl2n; rw [hid] at hl2n; exact absurd hl2n (by simp)
      · have herr := ih ⟨l2, h2, hl2n⟩
        cases hf : findTitleByVal rm sid <;> simp [rewriteLoop, hid, hf, herr]

theorem rewriteLoop_ok_spec (rm : SMap) :
    ∀ (L kept removed : List String),
      rewriteLoop rm L = Except.ok (kept, removed) →
      (∀ line ∈ kept, ∃ sid, (splitFields line)[1]? = some sid ∧ findTitleByVal rm sid = none) ∧
      (∀ ti ∈ removed, ∃ i, findTitleByVal rm i = some ti) ∧
      (∀ line ∈ L, ∀ sid, (splitFields line)[1]? = some sid →
        ∀ ti, findTitleByVal rm sid = some ti → ti ∈ removed) := by
  intro L
  induction L with
  | nil =>
    intro kept removed h
    simp only [rewriteLoop, Except.ok.injEq, Prod.mk.injEq] at h
    rcases h with ⟨h1, h2⟩
    subst h1; subst h2
    exact ⟨by simp, by simp, by simp⟩
  | cons line rest ih =>
    intro kept removed h
    cases hid : (splitFields line)[1]? with
    | none => simp [rewriteLoop, hid] at h
    | some sid =>
      cases hf : findTitleByVal rm sid with
      | some ti =>
        cases hr : rewriteLoop rm rest with
        | error e => simp [rewriteLoop, hid, hf, hr] at h
        | ok pr =>
          obtain ⟨k2, r2⟩ := pr
          simp only [rewriteLoop, hid, hf, hr, Except.ok.injEq, Prod.mk.injEq] at h
          rcases h with ⟨hk, hrm⟩
          subst hk; subst hrm
          rcases ih k2 r2 hr with ⟨ihk, ihr, ihl⟩
          refine ⟨ihk, ?_, ?_⟩
          · intro ti2 hti2
            rcases List.mem_cons.mp hti2 with h1 | h2
            · exact ⟨sid, by rw [h1]; exact hf⟩
            · exact ihr ti2 h2
          · intro line2 hline2 sid2 hsid2 ti2 hti2
            rcases List.mem_cons.mp hline2 with h1 | h2
            · rw [h1] at hsid2
              rw [hsid2] at hid
              injection hid with hid2
              rw [hid2] at hti2
              rw [hf] at hti2
              injection hti2 with h3
              rw [← h3]
              exact List.mem_cons_self _ _
            · exact List.mem_cons_of_mem ti (ihl line2 h2 sid2 hsid2 ti2 hti2)
      | none =>
        cases hr : rewriteLoop rm rest with
        | error e => simp [rewriteLoop, hid, hf, hr] at h
        | ok pr =>
          obtain ⟨k2, r2⟩ := pr
          simp only [rewriteLoop, hid, hf, hr, Except.ok.injEq, Prod.mk.injEq] at h
          rcases h with ⟨hk, hrm⟩
          subst hk; subst hrm
          rcases ih k2 r2 hr with ⟨ihk, ihr, ihl⟩
          refine ⟨?_, ihr, ?_⟩
          · intro line2 hline2
            rcases List.mem_cons.mp hline2 with h1 | h2
            · exact ⟨sid, by rw [h1]; exact hid, hf⟩
            · exact ihk line2 h2
          · intro line2 hline2 sid2 hsid2 ti2 hti2
            rcases List.mem_cons.mp hline2 with h1 | h2
            · rw [h1] at hsid2
              rw [hsid2] at hid
              injection hid with hid2
              rw [hid2] at hti2
              rw [hf] at hti2
              exact absurd hti2 (by simp)
            · exact ihl line2 h2 sid2 hsid2 ti2 hti2

theorem rewriteLoop_nil_rm (L : List String)
    (h : ∀ line ∈ L, (splitFields line)[1]? ≠ none) :
    rewriteLoop [] L = Except.ok (L, []) := by
  induction L with
  | nil => rfl
  | cons line rest ih =>
    cases hid : (splitFields line)[1]? with
    | none => exact absurd hid (h line (List.mem_cons_self _ _))
    | some sid =>
      have hrest := ih (fun l hl => h l (List.mem_cons_of_mem _ hl))
      simp [rewriteLoop, hid, findTitleByVal, hrest]

/-! Helper lemmas about the removal loop. -/

theorem removeLoop_sublist (pt : String) :
    ∀ (keys : List String) (arch : SMap) (files : List String) (a2 : SMap) (f2 : List String),
      removeLoop pt keys arch files = Except.ok (a2, f2) → f2.Sublist files := by
  intro keys
  induction keys with
  | nil =>
    intro arch files a2 f2 h
    simp only [removeLoop, Except.ok.injEq, Prod.mk.injEq] at h
    rw [← h.2]
  | cons key rest ih =>
    intro arch files a2 f2 h
    cases hg : globMatches pt key files with
    | nil => simp [removeLoop, hg] at h
    | cons f fs =>
      simp only [removeLoop, hg] at h
      exact (ih _ _ _ _ h).trans (List.erase_sublist f files)

theorem removeLoop_dget_none (pt : String) :
    ∀ (keys : List String) (arch : SMap) (files : List String) (a2 : SMap) (f2 : List String),
      removeLoop pt keys arch files = Except.ok (a2, f2) →
      ∀ t, (t ∈ keys ∨ dget arch t = none) → dget a2 t = none := by
  intro keys
  induction keys with
  | nil =>
    intro arch files a2 f2 h t ht
    simp only [removeLoop, Except.ok.injEq, Prod.mk.injEq] at h
    rcases ht with hk | hn
    · simp at hk
    · rw [← h.1]; exact hn
  | cons key rest ih =>
    intro arch files a2 f2 h t ht
    cases hg : globMatches pt key files with
    | nil => simp [removeLoop, hg] at h
    | cons f fs =>
      simp only [removeLoop, hg] at h
      apply ih _ _ _ _ h t
      rcases ht with hk | hn
      · rcases List.mem_cons.mp hk with h1 | h2
        · right; rw [h1]; exact dget_dpop_self arch key
        · left; exact h2
      · right; exact dget_dpop_none arch key t hn

theorem removeLoop_dget_preserve (pt : String) :
    ∀ (keys : List String) (arch : SMap) (files : List String) (a2 : SMap) (f2 : List String),
      removeLoop pt keys arch files = Except.ok (a2, f2) →
      ∀ t, (∀ k ∈ keys, k ≠ t) → dget a2 t = dget arch t := by
  intro keys
  induction keys with
  | nil =>
    intro arch files a2 f2 h t _
    simp only [removeLoop, Except.ok.injEq, Prod.mk.injEq] at h
    rw [← h.1]
  | cons key rest ih =>
    intro arch files a2 f2 h t hk
    cases hg : globMatches pt key files with
    | nil => simp [removeLoop, hg] at h
    | cons f fs =>
      simp only [removeLoop, hg] at h
      have h1 := ih _ _ _ _ h t (fun k2 hk2 => hk k2 (List.mem_cons_of_mem key hk2))
      rw [h1]
      exact dget_dpop_ne arch key t (Ne.symm (hk key (List.mem_cons_self _ _)))

theorem globMatches_sublist (pt t : String) {files1 files2 : List String}
    (h : files1.Sublist files2) :
    (globMatches pt t files1).Sublist (globMatches pt t files2) :=
  List.Sublist.filter _ h

theorem globMatches_eq_nil_iff (pt t : String) (files : List String) :
    globMatches pt t files = [] ↔ ∀ x ∈ files, isGlobMatch pt t x = false := by
  rw [globMatches, List.filter_eq_nil_iff]
  simp

theorem removeLoop_no_match (pt t : String) :
    ∀ (keys : List String) (arch : SMap) (files : List String) (a2 : SMap) (f2 : List String),
      removeLoop pt keys arch files = Except.ok (a2, f2) →
      files.Nodup →
      (globMatches pt t files = [] ∨ (t ∈ keys ∧ ∃ g, globMatches pt t files = [g])) →
      globMatches pt t f2 = [] := by
  intro keys
  induction keys with
  | nil =>
    intro arch files a2 f2 h _ hc
    simp only [removeLoop, Except.ok.injEq, Prod.mk.injEq] at h
    rcases hc with hnil | ⟨htk, _⟩
    · rw [← h.2]; exact hnil
    · simp at htk
  | cons key rest ih =>
    intro arch files a2 f2 h hnd hc
    cases hg : globMatches pt key files with
    | nil => simp [removeLoop, hg] at h
    | cons f fs =>
      simp only [removeLoop, hg] at h
      have hsub1 : (files.erase f).Sublist files := List.erase_sublist f files
      have hnd1 : (files.erase f).Nodup := List.Nodup.erase f hnd
      rcases hc with hnil | ⟨htk, g, hone⟩
      · apply ih _ _ _ _ h hnd1
        left
        have hsubm := globMatches_sublist pt t hsub1
        rw [hnil] at hsubm
        exact List.sublist_nil.mp hsubm
      · by_cases hkt : key = t
        · subst hkt
          have hgf : f = g := by
            have h12 := hone.symm.trans hg
            injection h12 with h1 _
            exact h1.symm
          subst hgf
          apply ih _ _ _ _ h hnd1
          left
          rw [List.eq_nil_iff_forall_not_mem]
          intro x hx
          rw [globMatches, List.mem_filter] at hx
          have hxf : x ∈ files := List.Sublist.mem hx.1 hsub1
          have hxm : x ∈ globMatches pt key files := by
            rw [globMatches, List.mem_filter]
            exact ⟨hxf, hx.2⟩
          rw [hone] at hxm
          have hxg : x = f := by simpa using hxm
          have := (List.Nodup.mem_erase_iff hnd).mp hx.1
          exact this.1 hxg
        · apply ih _ _ _ _ h hnd1
          have hsubm := globMatches_sublist pt t hsub1
          rw [hone] at hsubm
          rcases List.sublist_singleton.mp hsubm with hcase | hcase
          · left; exact hcase
          · right
            refine ⟨?_, g, hcase⟩
            rcases List.mem_cons.mp htk with h1 | h2
            · exact absurd h1.symm hkt
            · exact h2

theorem mem_foldl_dpop (es : List Entry) :
    ∀ (rl : SMap) (q : String × String),
      q ∈ es.foldl (fun r e => dpop r e.title) rl →
      q ∈ rl ∧ ∀ e ∈ es, e.title ≠ q.1 := by
  induction es with
  | nil => intro rl q h; exact ⟨by simpa using h, by simp⟩
  | cons e rest ih =>
    intro rl q h
    rw [List.foldl_cons] at h
    rcases ih _ _ h with ⟨h1, h2⟩
    rcases mem_dpop _ _ _ h1 with ⟨h3, h4⟩
    refine ⟨h3, ?_⟩
    intro e2 he2
    rcases List.mem_cons.mp he2 with h5 | h6
    · rw [h5]; exact Ne.symm h4
    · exact h2 e2 h6

/-! The reduction of sync on the main path, and claim theorems. -/

theorem sync_eq_update (m : Meta) (s : State)
    (h1 : s.valid_dir = true)
    (h2 : truthy (jget (s.config_file.getD []) "playlist_link") = true)
    (h3 : isPlaylistResource m) :
    sync m s = update_files m.title
      (runFetch m ⟨s.archive_file, s.files, s.sync_file.getD []⟩).remove_list
      (insertEntries (s.sync_file.getD []) m.entries)
      { s with archive_file := (runFetch m ⟨s.archive_file, s.files, s.sync_file.getD []⟩).lines,
               files := (runFetch m ⟨s.archive_file, s.files, s.sync_file.getD []⟩).files } := by
  have hcond : ¬ (m.mtype ≠ some "playlist" ∧ m.extractor_key ≠ some "YoutubePlaylist") := by
    rcases h3 with h | h
    · exact fun hc => hc.1 h
    · exact fun hc => hc.2 h
  simp [sync, h1, h2, hcond]

theorem update_files_not_playlist_err (pt : String) (rm sa : SMap) (s s1 : State) :
    update_files pt rm sa s ≠ SyncOutcome.err SyncErr.notYoutubePlaylist s1 := by
  cases ha : s.archive_file with
  | none => simp [update_files, ha]
  | some lines =>
    cases hr : rewriteLoop rm lines with
    | error e => simp [update_files, ha, hr]
    | ok pr =>
      obtain ⟨kept, removed⟩ := pr
      cases hv : removeLoop pt removed sa s.files with
      | error f1 => simp [update_files, ha, hr, hv]
      | ok pr2 =>
        obtain ⟨a2, f2⟩ := pr2
        simp [update_files, ha, hr, hv]

/-- C3: contrary to the claim, calling init with a new playlist link on an
already-initialized folder (config folder and both config files exist) leaves
the whole persisted state unchanged: in particular the stored playlist_link is
still the old link A, not the new link B, because init only writes
sync_config.conf when the file does not exist. -/
theorem C3_init_keeps_old_link :
    init initializedA "B" = initializedA ∧
    jget ((init initializedA "B").config_file.getD []) "playlist_link"
      = some (JVal.jstr "A") := by
  constructor <;> rfl

/-- C4 (amended): calling sync when the config folder is missing performs no
download and no reconciliation and leaves the state untouched, but it returns
normally (printing an error message) instead of raising: the outcome is the
ok constructor for every snapshot the fetcher could have produced. -/
theorem C4_sync_missing_folder (m : Meta) (s : State) (h : s.valid_dir = false) :
    sync m s = SyncOutcome.ok s := by
  simp [sync, h]

/-- C4 witness for the amended theorem at a concrete uninitialized state. -/
theorem C4_witness :
    noDirState.valid_dir = false ∧ sync metaPL noDirState = SyncOutcome.ok noDirState :=
  ⟨rfl, C4_sync_missing_folder metaPL noDirState rfl⟩

/-- C4 counterexample to the claim as stated: at an uninitialized folder the
sync call completes normally (the ok outcome, with the state unchanged); it
does not abort with an error, so the operation does not fail. -/
theorem C4_counterexample : sync metaPL noDirState = SyncOutcome.ok noDirState := rfl

/-- C6: with an existing config folder but no usable playlist link (key absent
or empty string), sync raises NoPlaylistLink before the fetcher runs: the
outcome is the same error with the state untouched for every snapshot the
fetcher could have produced. -/
theorem C6_no_playlist_link (m : Meta) (s : State)
    (h1 : s.valid_dir = true)
    (h2 : jget (s.config_file.getD []) "playlist_link" = none ∨
          jget (s.config_file.getD []) "playlist_link" = some (JVal.jstr "")) :
    sync m s = SyncOutcome.err SyncErr.noPlaylistLink s := by
  rcases h2 with h2 | h2 <;> simp [sync, h1, h2, truthy]

/-- C6 witness at a concrete state with an absent playlist_link key. -/
theorem C6_witness :
    noLinkState.valid_dir = true ∧
    jget (noLinkState.config_file.getD []) "playlist_link" = none ∧
    sync metaPL noLinkState = SyncOutcome.err SyncErr.noPlaylistLink noLinkState :=
  ⟨rfl, rfl, C6_no_playlist_link metaPL noLinkState rfl (Or.inl rfl)⟩

/-- C5: on the main path (initialized folder, usable link) sync raises
NotYoutubePlaylist exactly when the fetched metadata is not playlist-shaped;
when it is, the rest of the reconciliation runs and can only produce a normal
outcome or one of the file errors, never this exception. -/
theorem C5_not_playlist_iff (m : Meta) (s : State)
    (h1 : s.valid_dir = true)
    (h2 : truthy (jget (s.config_file.getD []) "playlist_link") = true) :
    (∃ s1, sync m s = SyncOutcome.err SyncErr.notYoutubePlaylist s1) ↔ ¬ isPlaylistResource m := by
  constructor
  · rintro ⟨s1, hs1⟩ hpl
    rw [sync_eq_update m s h1 h2 hpl] at hs1
    exact update_files_not_playlist_err _ _ _ _ _ hs1
  · intro hnpl
    have hcond : m.mtype ≠ some "playlist" ∧ m.extractor_key ≠ some "YoutubePlaylist" := by
      rw [isPlaylistResource] at hnpl
      exact not_or.mp hnpl
    refine ⟨{ s with archive_file := (runFetch m ⟨s.archive_file, s.files, s.sync_file.getD []⟩).lines, files := (runFetch m ⟨s.archive_file, s.files, s.sync_file.getD []⟩).files }, ?_⟩
    simp [sync, h1, h2, hcond]

/-- C5 witness instantiating the equivalence at a non-playlist metadata. -/
theorem C5_witness :
    readyState.valid_dir = true ∧
    ((∃ s1, sync metaVideo readyState = SyncOutcome.err SyncErr.notYoutubePlaylist s1)
      ↔ ¬ isPlaylistResource metaVideo) :=
  ⟨rfl, C5_not_playlist_iff metaVideo readyState rfl rfl⟩

/-- C10: a malformed line (fewer than two whitespace-separated fields) in the
Download Record Ledger makes the rewrite loop raise IndexError on
line.split()[1]: sync aborts with that error and the Archive Ledger file
sync_archive.json is left exactly as it was before the run. -/
theorem C10_malformed_line (m : Meta) (s : State) (L : List String) (line : String)
    (h1 : s.valid_dir = true)
    (h2 : truthy (jget (s.config_file.getD []) "playlist_link") = true)
    (h3 : isPlaylistResource m)
    (h4 : s.archive_file = some L)
    (h5 : line ∈ L) (h6 : (splitFields line).length < 2) :
    ∃ s1, sync m s = SyncOutcome.err SyncErr.indexError s1 ∧ s1.sync_file = s.sync_file := by
  have hid : (splitFields line)[1]? = none := List.getElem?_eq_none (by omega)
  obtain ⟨ex, hex⟩ :=
    fetchFold_lines_some m.entries m.title ⟨s.archive_file, s.files, s.sync_file.getD []⟩ L h4
  have herr := rewriteLoop_error_of_malformed
    (runFetch m ⟨s.archive_file, s.files, s.sync_file.getD []⟩).remove_list
    (L ++ ex) ⟨line, List.mem_append_left ex h5, hid⟩
  rw [sync_eq_update m s h1 h2 h3]
  have hex2 : (runFetch m ⟨s.archive_file, s.files, s.sync_file.getD []⟩).lines = some (L ++ ex) := hex
  refine ⟨{ s with archive_file := (runFetch m ⟨s.archive_file, s.files, s.sync_file.getD []⟩).lines, files := (runFetch m ⟨s.archive_file, s.files, s.sync_file.getD []⟩).files }, ?_, rfl⟩
  simp [update_files, hex2, herr]

/-- C10 witness at a concrete state whose text ledger starts with a blank line. -/
theorem C10_witness :
    ("" ∈ ["", "youtube x"] ∧ (splitFields "").length < 2) ∧
    ∃ s1, sync metaPL blankLineState = SyncOutcome.err SyncErr.indexError s1 ∧
      s1.sync_file = blankLineState.sync_file :=
  ⟨⟨by decide, by decide⟩,
    C10_malformed_line metaPL blankLineState ["", "youtube x"] "" rfl rfl
      (Or.inl rfl) rfl (by decide) (by decide)⟩

/-! Round-trip lemmas for the JSON codec of the Config Store. -/

theorem psb_quote (r : List Char) : parseStrBody ('"' :: r) = some ([], r) := by
  cases r with
  | nil => simp [parseStrBody]
  | cons a as => simp [parseStrBody]

theorem psb_cons (c : Char) (rest : List Char) (h1 : ¬ c = '"') (h2 : ¬ c = '\\') :
    parseStrBody (c :: rest)
      = match parseStrBody rest with
        | none => none
        | some (body, r) => some (c :: body, r) := by
  cases rest with
  | nil => simp [parseStrBody, h1, h2]
  | cons d rest2 => simp [parseStrBody, h1, h2]

theorem psb_esc (d : Char) (rest2 : List Char) :
    parseStrBody ('\\' :: d :: rest2)
      = match parseStrBody rest2 with
        | none => none
        | some (body, r) => some (d :: body, r) := by
  simp [parseStrBody]

theorem parseStrBody_enc (cs : List Char) :
    ∀ r : List Char, parseStrBody (encStrChars cs ++ '"' :: r) = some (cs, r) := by
  induction cs with
  | nil =>
    intro r
    have henc : encStrChars [] ++ '"' :: r = '"' :: r := by simp [encStrChars]
    rw [henc, psb_quote]
  | cons c rest ih =>
    intro r
    by_cases hc : c = '"' ∨ c = '\\'
    · have henc : encStrChars (c :: rest) ++ '"' :: r
          = '\\' :: c :: (encStrChars rest ++ '"' :: r) := by
        simp [encStrChars, escChar, hc]
      rw [henc, psb_esc, ih r]
    · have h1 : ¬ (c = '"') := fun h => hc (Or.inl h)
      have h2 : ¬ (c = '\\') := fun h => hc (Or.inr h)
      have henc : encStrChars (c :: rest) ++ '"' :: r
          = c :: (encStrChars rest ++ '"' :: r) := by
        simp [encStrChars, escChar, hc]
      rw [henc, psb_cons c _ h1 h2, ih r]

theorem parsePairs_enc (m : SMap) :
    ∀ (fuel : Nat) (r : List Char), m ≠ [] → m.length ≤ fuel →
      parsePairs fuel (encPairs m ++ '\x7d' :: r) = some (m, r) := by
  induction m with
  | nil => intro fuel r h _; exact absurd rfl h
  | cons p rest ih =>
    intro fuel r _ hlen
    cases fuel with
    | zero => simp at hlen
    | succ fuel =>
      cases rest with
      | nil =>
        have h1 : encPairs [p] ++ '\x7d' :: r
            = '"' :: (encStrChars p.1.toList ++ '"' ::
              (':' :: ' ' :: '"' :: (encStrChars p.2.toList ++ '"' :: ('\x7d' :: r)))) := by
          simp [encPairs, encPair, encStr]
        rw [h1]
        simp [parsePairs, parseStrBody_enc, mk_toList]
      | cons q rest2 =>
        have h1 : encPairs (p :: q :: rest2) ++ '\x7d' :: r
            = '"' :: (encStrChars p.1.toList ++ '"' ::
              (':' :: ' ' :: '"' :: (encStrChars p.2.toList ++ '"' ::
                (',' :: ' ' :: (encPairs (q :: rest2) ++ '\x7d' :: r))))) := by
          simp [encPairs, encPair, encStr]
        rw [h1]
        have hlen2 : (q :: rest2).length ≤ fuel := by
          simp at hlen
          simpa using hlen
        have hrec := ih fuel r (by simp) hlen2
        simp [parsePairs, parseStrBody_enc, mk_toList, hrec]

theorem encPair_length_pos (p : String × String) : 1 ≤ (encPair p).length := by
  simp [encPair, encStr]

theorem encPairs_length (m : SMap) : m.length ≤ (encPairs m).length := by
  induction m with
  | nil => simp [encPairs]
  | cons p rest ih =>
    cases rest with
    | nil => simpa [encPairs] using encPair_length_pos p
    | cons q rest2 =>
      have hp := encPair_length_pos p
      simp only [encPairs, List.length_append, List.length_cons] at ih ⊢
      omega

/-- C8: writing the Archive Ledger mapping with write_json and loading it back
with load_json returns exactly the mapping that was persisted, for every
mapping whose keys and values consist of printable ASCII characters (the range
on which the byte-level codec model matches json.dump, which additionally
escapes control and non-ASCII characters). -/
theorem C8_round_trip (m : SMap) (d : SMap)
    (hplain : ∀ p ∈ m, (∀ c ∈ p.1.toList, 32 ≤ c.toNat ∧ c.toNat ≤ 126) ∧
      (∀ c ∈ p.2.toList, 32 ≤ c.toNat ∧ c.toNat ≤ 126)) :
    load_json (some (write_json m)) d = some m := by
  cases m with
  | nil => rfl
  | cons p rest =>
    have htext : (write_json (p :: rest)).toList
        = '\x7b' :: (encPairs (p :: rest) ++ ['\x7d']) := rfl
    have hfuel : (p :: rest).length ≤ (encPairs (p :: rest) ++ ['\x7d']).length + 1 := by
      have hlb := encPairs_length (p :: rest)
      simp only [List.length_append, List.length_cons, List.length_nil] at hlb ⊢
      omega
    have hsplit : encPairs (p :: rest) ++ ['\x7d'] = encPairs (p :: rest) ++ '\x7d' :: [] := rfl
    have hparse := parsePairs_enc (p :: rest)
      ((encPairs (p :: rest) ++ ['\x7d']).length + 1) [] (by simp) hfuel
    have hne : ¬ (encPairs (p :: rest) ++ ['\x7d'] = ['\x7d']) := by
      intro hcontr
      have hlen1 := congrArg List.length hcontr
      simp only [List.length_append, List.length_cons, List.length_nil] at hlen1
      have h2 := encPairs_length (p :: rest)
      simp only [List.length_cons] at h2
      omega
    rw [hsplit] at hparse
    simp only [load_json, json_parse_obj, htext, if_neg hne, hparse]

/-- Dissection of a successful sync: when the working set after the fetch
holds no pair keyed by t, the persisted ledger lookup of t after the run is
exactly its lookup in the entry-inserted ledger (no removal touches t). -/
theorem sync_ok_dget (m : Meta) (s : State) (t : String) (s1 : State)
    (h1 : s.valid_dir = true)
    (h2 : truthy (jget (s.config_file.getD []) "playlist_link") = true)
    (h3 : isPlaylistResource m)
    (hrl : ∀ p ∈ (runFetch m ⟨s.archive_file, s.files, s.sync_file.getD []⟩).remove_list, p.1 ≠ t)
    (hok : sync m s = SyncOutcome.ok s1) :
    dget (s1.sync_file.getD []) t
      = dget (insertEntries (s.sync_file.getD []) m.entries) t := by
  rw [sync_eq_update m s h1 h2 h3] at hok
  cases hl : (runFetch m ⟨s.archive_file, s.files, s.sync_file.getD []⟩).lines with
  | none => simp [update_files, hl] at hok
  | some L =>
    cases hr : rewriteLoop (runFetch m ⟨s.archive_file, s.files, s.sync_file.getD []⟩).remove_list L with
    | error e => simp [update_files, hl, hr] at hok
    | ok pr =>
      obtain ⟨kept, removed⟩ := pr
      cases hv : removeLoop m.title removed
          (insertEntries (s.sync_file.getD []) m.entries)
          (runFetch m ⟨s.archive_file, s.files, s.sync_file.getD []⟩).files with
      | error f1 => simp [update_files, hl, hr, hv] at hok
      | ok pr2 =>
        obtain ⟨arch2, files2⟩ := pr2
        simp only [update_files, hl, hr, hv, SyncOutcome.ok.injEq] at hok
        have hkeys : ∀ k ∈ removed, k ≠ t := by
          intro k hk
          rcases (rewriteLoop_ok_spec _ L kept removed hr).2.1 k hk with ⟨i2, hfind⟩
          exact hrl _ (findTitleByVal_mem _ i2 k hfind)
        have hpres := removeLoop_dget_preserve m.title removed
          (insertEntries (s.sync_file.getD []) m.entries)
          (runFetch m ⟨s.archive_file, s.files, s.sync_file.getD []⟩).files
          arch2 files2 hv t hkeys
        rw [← hok]
        simpa using hpres

/-- C7 (amended): an entry present in both the previous ledger and the
snapshot with the same title and id keeps its ledger id through a completing
sync, provided its id is recorded in the text ledger (so the fetch reports it
still present and its title leaves the removal working set) and no other
snapshot entry reuses the title with a different id. -/
theorem C7_id_preserved (m : Meta) (s : State) (t i : String) (e : Entry) (s1 : State)
    (h1 : s.valid_dir = true)
    (h2 : truthy (jget (s.config_file.getD []) "playlist_link") = true)
    (h3 : isPlaylistResource m)
    (hmem : dget (s.sync_file.getD []) t = some i)
    (hent : e ∈ m.entries) (het : e.title = t) (heid : e.id = i)
    (hrec : hasLine (s.archive_file.getD []) (recLine e) = true)
    (huniq : ∀ e2 ∈ m.entries, e2.title = t → e2.id = i)
    (hok : sync m s = SyncOutcome.ok s1) :
    dget (s1.sync_file.getD []) t = some i := by
  have hrl : ∀ p ∈ (runFetch m ⟨s.archive_file, s.files, s.sync_file.getD []⟩).remove_list, p.1 ≠ t :=
    fetchFold_key_removed m.title t m.entries ⟨s.archive_file, s.files, s.sync_file.getD []⟩
      e hent het hrec
  rw [sync_ok_dget m s t s1 h1 h2 h3 hrl hok]
  exact insertEntries_dget_fixed m.entries _ t i hmem huniq

/-- C9 (amended): when the snapshot carries several entries with the same
title (distinct ids), a completing sync leaves the ledger mapping that title
to the id of the last such entry in snapshot order, provided the title was not
in the previous ledger (so the removal pass cannot drop it; the counterexample
shows the unrestricted claim fails on that pass). -/
theorem C9_last_entry_wins (m : Meta) (s : State) (t : String)
    (l1 l2 : List Entry) (e : Entry) (s1 : State)
    (h1 : s.valid_dir = true)
    (h2 : truthy (jget (s.config_file.getD []) "playlist_link") = true)
    (h3 : isPlaylistResource m)
    (hsplit : m.entries = l1 ++ e :: l2)
    (het : e.title = t)
    (hl2 : ∀ e2 ∈ l2, e2.title ≠ t)
    (hnew : dget (s.sync_file.getD []) t = none)
    (hok : sync m s = SyncOutcome.ok s1) :
    dget (s1.sync_file.getD []) t = some e.id := by
  have hrl : ∀ p ∈ (runFetch m ⟨s.archive_file, s.files, s.sync_file.getD []⟩).remove_list, p.1 ≠ t := by
    intro p hp
    exact (dget_eq_none_iff _ t).mp hnew p
      (fetchFold_remove_list_mem m.entries m.title _ p hp)
  rw [sync_ok_dget m s t s1 h1 h2 h3 hrl hok, hsplit]
  exact insertEntries_last l1 l2 e _ t het hl2

/-- C2 (amended): one sync run is a no-op on the whole persisted state when
that state already agrees with the snapshot: every snapshot id is recorded in
the text ledger (nothing is downloaded and every entry is reported already
recorded), the JSON ledger maps each snapshot title exactly to its snapshot
id, every ledger title occurs among the snapshot titles, and every ledger line
is well formed.  The second of two consecutive runs against an unchanged
remote is hence a no-op whenever the first run ends in such a state; the
unconditional two-run claim fails, see the counterexample. -/
theorem C2_noop (m : Meta) (s : State) (mp : SMap) (L : List String)
    (h1 : s.valid_dir = true)
    (h2 : truthy (jget (s.config_file.getD []) "playlist_link") = true)
    (h3 : isPlaylistResource m)
    (hsf : s.sync_file = some mp)
    (haf : s.archive_file = some L)
    (ha : ∀ e ∈ m.entries, hasLine L (recLine e) = true)
    (hb : ∀ e ∈ m.entries, dget mp e.title = some e.id)
    (hc : ∀ p ∈ mp, ∃ e ∈ m.entries, e.title = p.1)
    (he : ∀ line ∈ L, 2 ≤ (splitFields line).length) :
    sync m s = SyncOutcome.ok s := by
  rw [sync_eq_update m s h1 h2 h3]
  have hst : (⟨s.archive_file, s.files, s.sync_file.getD []⟩ : FetchSt)
      = ⟨some L, s.files, mp⟩ := by rw [haf, hsf]; rfl
  rw [hst]
  have hrf : runFetch m ⟨some L, s.files, mp⟩
      = ⟨some L, s.files, m.entries.foldl (fun r e => dpop r e.title) mp⟩ :=
    fetchFold_all_recorded m.entries m.title ⟨some L, s.files, mp⟩ ha
  have hrl : m.entries.foldl (fun r e => dpop r e.title) mp = [] := by
    rw [List.eq_nil_iff_forall_not_mem]
    intro q hq
    rcases mem_foldl_dpop m.entries mp q hq with ⟨hq1, hq2⟩
    rcases hc q hq1 with ⟨e2, he2, hte⟩
    exact hq2 e2 he2 hte
  rw [hrf, hrl]
  have hins : insertEntries (s.sync_file.getD []) m.entries = mp := by
    rw [hsf]
    exact insertEntries_eq_self m.entries mp hb
  rw [hins]
  have hrw : rewriteLoop [] L = Except.ok (L, []) := by
    apply rewriteLoop_nil_rm
    intro line hl hnone
    rw [List.getElem?_eq_none_iff] at hnone
    have := he line hl
    omega
  simp only [update_files, hrw, removeLoop]
  rw [← haf, ← hsf]

/-- C1 (amended): a title that survives in the candidates-for-removal working
set after the fetch is fully removed by a completing sync, provided some line
of the post-fetch text ledger carries its id, it is the first working-set
entry holding that id, and exactly one file of the duplicate-free post-fetch
file set matches its wildcard pattern: the title is absent from the persisted
ledger, every line carrying its id is dropped, and no matching file remains.
Without the recorded-line proviso the claim fails, see the counterexample. -/
theorem C1_removed (m : Meta) (s : State) (t i g : String) (fo : FetchSt) (s1 : State)
    (hfo : fo = runFetch m ⟨s.archive_file, s.files, s.sync_file.getD []⟩)
    (h1 : s.valid_dir = true)
    (h2 : truthy (jget (s.config_file.getD []) "playlist_link") = true)
    (h3 : isPlaylistResource m)
    (h4 : (t, i) ∈ fo.remove_list)
    (h5 : ∀ p ∈ fo.remove_list, p.2 = i → p.1 = t)
    (h6 : ∃ line ∈ fo.lines.getD [], (splitFields line)[1]? = some i)
    (h7 : fo.files.Nodup)
    (h8 : globMatches m.title t fo.files = [g])
    (hok : sync m s = SyncOutcome.ok s1) :
    (∀ mp2, s1.sync_file = some mp2 → dget mp2 t = none) ∧
    (∀ L2, s1.archive_file = some L2 → ∀ line ∈ L2, ¬ (splitFields line)[1]? = some i) ∧
    (∀ f ∈ s1.files, isGlobMatch m.title t f = false) := by
  subst hfo
  rw [sync_eq_update m s h1 h2 h3] at hok
  cases hl : (runFetch m ⟨s.archive_file, s.files, s.sync_file.getD []⟩).lines with
  | none =>
    rw [hl] at h6
    simp at h6
  | some L =>
    rw [hl] at h6
    simp only [Option.getD_some] at h6
    cases hr : rewriteLoop (runFetch m ⟨s.archive_file, s.files, s.sync_file.getD []⟩).remove_list L with
    | error e => simp [update_files, hl, hr] at hok
    | ok pr =>
      obtain ⟨kept, removed⟩ := pr
      obtain ⟨rskept, rsrem, rsall⟩ := rewriteLoop_ok_spec _ L kept removed hr
      have hfind : findTitleByVal
          (runFetch m ⟨s.archive_file, s.files, s.sync_file.getD []⟩).remove_list i = some t :=
        findTitleByVal_eq_some _ t i h4 h5
      obtain ⟨bline, hbmem, hbid⟩ := h6
      have htrem : t ∈ removed := rsall bline hbmem i hbid t hfind
      cases hv : removeLoop m.title removed
          (insertEntries (s.sync_file.getD []) m.entries)
          (runFetch m ⟨s.archive_file, s.files, s.sync_file.getD []⟩).files with
      | error f1 => simp [update_files, hl, hr, hv] at hok
      | ok pr2 =>
        obtain ⟨arch2, files2⟩ := pr2
        simp only [update_files, hl, hr, hv, SyncOutcome.ok.injEq] at hok
        have hsf1 : s1.sync_file = some arch2 := by rw [← hok]
        have haf1 : s1.archive_file = some kept := by rw [← hok]
        have hfl1 : s1.files = files2 := by rw [← hok]
        refine ⟨?_, ?_, ?_⟩
        · intro mp2 hmp2
          rw [hsf1] at hmp2
          injection hmp2 with hmp3
          rw [← hmp3]
          exact removeLoop_dget_none m.title removed _ _ arch2 files2 hv t (Or.inl htrem)
        · intro L2 hL2 line hline hbad
          rw [haf1] at hL2
          injection hL2 with hL3
          rw [← hL3] at hline
          obtain ⟨sid, hsid, hfnone⟩ := rskept line hline
          rw [hbad] at hsid
          injection hsid with hsid2
          rw [← hsid2] at hfnone
          rw [hfind] at hfnone
          exact Option.noConfusion hfnone
        · intro f hf
          rw [hfl1] at hf
          have hnom := removeLoop_no_match m.title t removed
            (insertEntries (s.sync_file.getD []) m.entries)
            (runFetch m ⟨s.archive_file, s.files, s.sync_file.getD []⟩).files
            arch2 files2 hv h7 (Or.inr ⟨htrem, g, h8⟩)
          rw [globMatches_eq_nil_iff] at hnom
          exact hnom f hf

/-! Concrete fixtures and witnesses for the reconciliation claims. -/

/-- C2 witness: a run against the steady state changes nothing, with every
hypothesis of the amended no-op theorem checked on the concrete data. -/
theorem C2_witness :
    (∀ e ∈ metaTI.entries, hasLine ["youtube i"] (recLine e) = true) ∧
    (∀ e ∈ metaTI.entries, dget [("t", "i")] e.title = some e.id) ∧
    (∀ p ∈ ([("t", "i")] : SMap), ∃ e ∈ metaTI.entries, e.title = p.1) ∧
    (∀ line ∈ ["youtube i"], 2 ≤ (splitFields line).length) ∧
    sync metaTI steadyState = SyncOutcome.ok steadyState :=
  ⟨by decide, by decide, by decide, by decide,
    C2_noop metaTI steadyState [("t", "i")] ["youtube i"] rfl rfl (Or.inl rfl) rfl rfl
      (by decide) (by decide) (by decide) (by decide)⟩

/-- C2 counterexample: two consecutive runs against the same unchanged remote
snapshot.  The second run downloads nothing (its fetch leaves the archive and
files untouched and reports everything already recorded, emptying the working
set), yet the persisted Archive Ledger differs after the second run: the first
run dropped t while the second reinstates it. -/
theorem C2_counterexample :
    sync metaTnew reupState = SyncOutcome.ok reupState1 ∧
    sync metaTnew reupState1 = SyncOutcome.ok reupState2 ∧
    runFetch metaTnew ⟨reupState1.archive_file, reupState1.files, reupState1.sync_file.getD []⟩
      = ⟨reupState1.archive_file, reupState1.files, []⟩ ∧
    ¬ (reupState2.sync_file = reupState1.sync_file) := by
  refine ⟨by decide, by decide, by decide, by decide⟩

/-- C7 witness: in the steady state the entry t keeps its id i through a
completing sync, with the hypotheses of the amended theorem checked on the
concrete data. -/
theorem C7_witness :
    (⟨"t", "i"⟩ : Entry) ∈ metaTI.entries ∧
    hasLine (steadyState.archive_file.getD []) (recLine ⟨"t", "i"⟩) = true ∧
    dget (steadyState.sync_file.getD []) "t" = some "i" :=
  ⟨by decide, by decide,
    C7_id_preserved metaTI steadyState "t" "i" ⟨"t", "i"⟩ steadyState rfl rfl (Or.inl rfl)
      rfl (by decide) rfl rfl (by decide) (by decide) (by decide)⟩

/-- C7 counterexample: the entry (t, i) is present in both the starting
ledger and the snapshot with identical title and id, yet after the completing
sync the title is gone from the ledger: its id was not yet recorded in the
text ledger, so the fetch re-downloads it, the fresh record line matches the
stale working-set entry, and the removal pass deletes the title it just
downloaded. -/
theorem C7_counterexample :
    dget (desyncState.sync_file.getD []) "t" = some "i" ∧
    (⟨"t", "i"⟩ : Entry) ∈ metaTI.entries ∧
    sync metaTI desyncState = SyncOutcome.ok desyncFinal ∧
    dget (desyncFinal.sync_file.getD []) "t" = none := by
  refine ⟨by decide, by decide, by decide, by decide⟩

/-- C9 witness: starting from a ledger without t, the duplicate-title snapshot
leaves t mapped to the id of its later entry. -/
theorem C9_witness :
    metaT12.entries = [⟨"t", "i1"⟩] ++ ⟨"t", "i2"⟩ :: [] ∧
    dget (freshState.sync_file.getD []) "t" = none ∧
    sync metaT12 freshState = SyncOutcome.ok dupFinal ∧
    dget (dupFinal.sync_file.getD []) "t" = some "i2" :=
  ⟨rfl, rfl, by decide,
    C9_last_entry_wins metaT12 freshState "t" [⟨"t", "i1"⟩] [] ⟨"t", "i2"⟩ dupFinal
      rfl rfl (Or.inl rfl) rfl rfl (by decide) rfl (by decide)⟩

/-- C9 counterexample: the snapshot holds two distinct entries with title t
and different ids, yet after sync the ledger does not map t to the later id:
the removal pass drops t entirely (its old id was still recorded), so t is
absent instead of mapped to i2. -/
theorem C9_counterexample :
    (⟨"t", "i1"⟩ : Entry) ∈ metaT12.entries ∧
    (⟨"t", "i2"⟩ : Entry) ∈ metaT12.entries ∧
    ¬ (("i1" : String) = "i2") ∧
    sync metaT12 dupTitleState = SyncOutcome.ok dupTitleFinal ∧
    dget (dupTitleFinal.sync_file.getD []) "t" = none := by
  refine ⟨by decide, by decide, by decide, by decide, by decide⟩

/-- C1 witness: the scenario of the spec, with Song B left in the working set
after the fetch; the amended theorem yields that Song B is gone from the
persisted ledger, its record line is dropped and its file is deleted. -/
theorem C1_witness :
    (sync metaA twoSongState = SyncOutcome.ok oneSongState ∧
     ("Song B", "id2") ∈ twoSongFetch.remove_list) ∧
    (∀ mp2, oneSongState.sync_file = some mp2 → dget mp2 "Song B" = none) ∧
    (∀ L2, oneSongState.archive_file = some L2 →
      ∀ line ∈ L2, ¬ (splitFields line)[1]? = some "id2") ∧
    (∀ f ∈ oneSongState.files, isGlobMatch metaA.title "Song B" f = false) :=
  ⟨⟨by decide, by decide⟩,
    C1_removed metaA twoSongState "Song B" "id2" "./PL/Song B.m4a" twoSongFetch oneSongState
      (by decide) rfl rfl (Or.inl rfl) (by decide) (by decide) (by decide) (by decide)
      (by decide) (by decide)⟩

/-- C1 counterexample: Song B remains in the candidates-for-removal working
set after a fetch of the empty remote snapshot, the sync completes normally,
and yet B is still in the persisted ledger and its local file still exists:
no text-ledger line carried its id, so the removal pass never saw it. -/
theorem C1_counterexample :
    ("B", "id2") ∈ (runFetch metaPL
      ⟨staleState.archive_file, staleState.files, staleState.sync_file.getD []⟩).remove_list ∧
    sync metaPL staleState = SyncOutcome.ok staleState ∧
    dget (staleState.sync_file.getD []) "B" = some "id2" ∧
    staleState.files = ["./PL/B.m4a"] := by
  refine ⟨by decide, by decide, by decide, by decide⟩

/-- C8 witness: the round trip at a concrete two-entry mapping of printable
ASCII strings. -/
theorem C8_witness :
    (∀ p ∈ ([("Song A", "id1"), ("Song B", "id2")] : SMap),
      (∀ c ∈ p.1.toList, 32 ≤ c.toNat ∧ c.toNat ≤ 126) ∧
      (∀ c ∈ p.2.toList, 32 ≤ c.toNat ∧ c.toNat ≤ 126)) ∧
    load_json (some (write_json [("Song A", "id1"), ("Song B", "id2")])) []
      = some [("Song A", "id1"), ("Song B", "id2")] :=
  ⟨by decide, C8_round_trip [("Song A", "id1"), ("Song B", "id2")] [] (by decide)⟩

end YtSync
